import Mathlib

/-!
Shallow embedding of the ChopshopSignin model layer (src/signinapp/model.py).

Conventions of the embedding:
- `datetime` values are modelled as integers on an abstract timeline (`Int`);
  `timedelta` subtraction becomes integer subtraction.
- Strings are ASCII in every code path the claims touch (the name regex only
  admits `[a-zA-Z ']`), so Python `str.lower()` is modelled as per-character
  `Char.toLower` and `str.encode("utf-8")` as the standard UTF-8 byte encoding
  of each code point.
- The SQLAlchemy tables become lists of records inside a `State` structure;
  autoincremented primary keys become explicit `nextActiveId` / `nextStampId`
  counters.  Columns that no claim and no modelled operation reads
  (passwords, descriptions, locations, badges, roles beyond the mentor flag)
  are omitted.
- `one_or_none()` is modelled by matching on the filtered list: the two-or-more
  branch raises `MultipleResultsFound` in Python, which aborts the request with
  no state change, so it is modelled as returning the unchanged state and no
  outcome.
-/

namespace Signin

/-- Character class `[a-zA-Z ']` used by the `last` and `first` groups of
`NAME_RE` in model.py.  The apostrophe is written by code point. -/
def nameChar (c : Char) : Bool :=
  c.isAlpha || c == ' ' || c.toNat == 39

/-- Python `\s` on the ASCII range: space, tab, newline, carriage return,
vertical tab, form feed. -/
def isSpacePy (c : Char) : Bool :=
  c == ' ' || c == '\t' || c == '\n' || c == '\r' || c.toNat == 11 || c.toNat == 12

/-- Separator class `[ -]` of the mentor group of `NAME_RE`. -/
def isSep (c : Char) : Bool :=
  c == ' ' || c == '-'

/-- Backtracking over the greedy `\s*` between the comma and the `first`
group of `NAME_RE`: try dropping `k` whitespace characters, longest first,
and accept the remainder when it is a nonempty run of `nameChar` reaching
the end of the string. -/
def firstTry (rest : List Char) : Nat → Option (List Char)
  | 0 => if !rest.isEmpty && rest.all nameChar then some rest else none
  | k + 1 =>
    let cand := rest.drop (k + 1)
    if !cand.isEmpty && cand.all nameChar then some cand else firstTry rest k

/-- The part of `NAME_RE` after the optional mentor prefix:
`(?P<last>[a-zA-Z ']+),\s*(?P<first>[a-zA-Z ']+)$`.  The `last` group is the
maximal run of `nameChar` (the comma is outside the class, so no shorter run
can ever succeed), then a literal comma, then `firstTry` handles the `\s*`
backtracking.  Returns `(last, first)`. -/
def parseRest (l : List Char) : Option (List Char × List Char) :=
  let last := l.takeWhile nameChar
  let rest := l.dropWhile nameChar
  if last.isEmpty then none
  else
    match rest with
    | ',' :: rest2 =>
      match firstTry rest2 (rest2.takeWhile isSpacePy).length with
      | some first => some (last, first)
      | none => none
    | _ => none

/-- Literal `mentor` matched case-insensitively (the `(?i)` inline flag of
`NAME_RE`). -/
def stripMentor : List Char → Option (List Char)
  | c1 :: c2 :: c3 :: c4 :: c5 :: c6 :: rest =>
    if c1.toLower == 'm' && c2.toLower == 'e' && c3.toLower == 'n' &&
       c4.toLower == 't' && c5.toLower == 'o' && c6.toLower == 'r' then
      some rest
    else
      none
  | _ => none

/-- Backtracking over the greedy `[ -]*` after the mentor literal: try the
longest separator run first. -/
def sepTry (rest : List Char) : Nat → Option (List Char × List Char)
  | 0 => parseRest rest
  | k + 1 =>
    match parseRest (rest.drop (k + 1)) with
    | some r => some r
    | none => sepTry rest k

/-- Full-match semantics of `NAME_RE` from model.py:
`^(?P<mentor>(?i)mentor[ -]*)?(?P<last>[a-zA-Z ']+),\s*(?P<first>[a-zA-Z ']+)$`.
The optional mentor group is greedy, so the variant with the prefix consumed
is tried first, with its `[ -]*` run longest first; on failure the whole
string is parsed without the prefix.  Returns the `(last, first)` groups. -/
def matchName (l : List Char) : Option (List Char × List Char) :=
  match stripMentor l with
  | some rest =>
    match sepTry rest (rest.takeWhile isSep).length with
    | some r => some r
    | none => parseRest l
  | none => parseRest l

/-- Base64 alphabet membership `[A-Za-z\d+/]` used by `HASH_RE`. -/
def isB64Char (c : Char) : Bool :=
  c.isAlpha || c.isDigit || c == '+' || c == '/'

/-- Full-match semantics of `HASH_RE` from model.py:
`^(?:[A-Za-z\d+/]{4})*(?:[A-Za-z\d+/]{3}=|[A-Za-z\d+/]{2}==)?$`.
Every alternative consumes exactly four characters, so a match is a sequence
of four-character alphabet blocks whose final block may instead end in `=` or
`==`. -/
def matchHash : List Char → Bool
  | [] => true
  | a :: b :: c :: d :: rest =>
    isB64Char a && isB64Char b &&
      (if rest.isEmpty then
        (isB64Char c && (isB64Char d || d == '=')) || (c == '=' && d == '=')
      else
        isB64Char c && isB64Char d && matchHash rest)
  | _ => false

/-- UTF-8 encoding of one code point (Python `str.encode("utf-8")`,
one character). -/
def utf8Char (c : Char) : List Nat :=
  let n := c.toNat
  if n < 128 then [n]
  else if n < 2048 then [192 + n / 64, 128 + n % 64]
  else if n < 65536 then [224 + n / 4096, 128 + (n / 64) % 64, 128 + n % 64]
  else [240 + n / 262144, 128 + (n / 4096) % 64, 128 + (n / 64) % 64, 128 + n % 64]

/-- UTF-8 encoding of a character list. -/
def utf8Encode (l : List Char) : List Nat :=
  (l.map utf8Char).flatten

/-- Character of the standard base64 alphabet at index `n < 64`. -/
def b64char (n : Nat) : Char :=
  if n < 26 then Char.ofNat (65 + n)
  else if n < 52 then Char.ofNat (97 + (n - 26))
  else if n < 62 then Char.ofNat (48 + (n - 52))
  else if n == 62 then '+'
  else '/'

/-- Standard base64 encoding of a byte list with `=` padding
(Python `base64.b64encode`). -/
def b64encode : List Nat → List Char
  | [] => []
  | [b1] => [b64char (b1 / 4), b64char (b1 % 4 * 16), '=', '=']
  | [b1, b2] => [b64char (b1 / 4), b64char (b1 % 4 * 16 + b2 / 16),
                 b64char (b2 % 16 * 4), '=']
  | b1 :: b2 :: b3 :: rest =>
    b64char (b1 / 4) :: b64char (b1 % 4 * 16 + b2 / 16) ::
      b64char (b2 % 16 * 4 + b3 / 64) :: b64char (b3 % 64) :: b64encode rest

/-- Embedding of `mk_hash` from model.py:
`base64.b64encode(name.lower().encode("utf-8")).decode("utf-8")`. -/
def mk_hash (name : String) : String :=
  ⟨b64encode (utf8Encode (name.data.map Char.toLower))⟩

/-- Embedding of `canonical_name` from model.py: a `NAME_RE` match yields
`mk_hash` of `"first last"`; otherwise a `HASH_RE` match passes the string
through unchanged; otherwise the Python function falls through and returns
`None`. -/
def canonical_name (name : String) : Option String :=
  match matchName name.data with
  | some (last, first) => some (mk_hash ⟨first ++ ' ' :: last⟩)
  | none => if matchHash name.data then some name else none

/-- Row of the `users` table.  `mentor` is the `mentor` flag of the user's
`Role` row, flattened into the user record (the joined `Role` table carries
no other data any modelled operation reads).  Unread columns (password,
role id, active flag) are omitted. -/
structure UserRec where
  id : Nat
  name : String
  code : String
  approved : Bool
  mentor : Bool
  subteam_id : Option Nat
deriving Repr, DecidableEq

/-- Row of the `events` table (description and location omitted: no modelled
operation reads them). -/
structure EventRec where
  id : Nat
  name : String
  code : String
  start : Int
  end_ : Int
  type_id : Nat
  enabled : Bool
deriving Repr, DecidableEq

/-- Row of the `event_types` table (description omitted).  Note the table has
no enabled column; its only boolean is `autoload`. -/
structure EventTypeRec where
  id : Nat
  name : String
  autoload : Bool
deriving Repr, DecidableEq

/-- Row of the `active` table: an open sign-in session. -/
structure ActiveRec where
  id : Nat
  user_id : Nat
  event_id : Nat
  start : Int
deriving Repr, DecidableEq

/-- Row of the `stamps` table: a completed session. -/
structure StampRec where
  id : Nat
  user_id : Nat
  event_id : Nat
  start : Int
  end_ : Int
deriving Repr, DecidableEq

/-- Embedding of the `StampEvent` dataclass returned by `scan`. -/
structure StampEvent where
  name : String
  event : String
deriving Repr, DecidableEq

/-- The database state: one list per table plus the autoincrement counters
for the two tables whose rows the modelled operations create. -/
structure State where
  users : List UserRec
  events : List EventRec
  eventTypes : List EventTypeRec
  actives : List ActiveRec
  stamps : List StampRec
  nextActiveId : Nat
  nextStampId : Nat
deriving Repr, DecidableEq

/-- Embedding of `Event.is_active`:
`self.enabled == True and self.start < now and now < self.end`. -/
def is_active (e : EventRec) (now : Int) : Bool :=
  e.enabled && decide (e.start < now) && decide (now < e.end_)

/-- Primary-key lookup in the `users` table. -/
def findUser (s : State) (uid : Nat) : Option UserRec :=
  s.users.find? (fun u => u.id == uid)

/-- Primary-key lookup in the `events` table. -/
def findEvent (s : State) (eid : Nat) : Option EventRec :=
  s.events.find? (fun e => e.id == eid)

/-- Embedding of `User.human_readable`:
`f"{'*' if self.mentor else ''}{self.name}"`. -/
def human_readable (u : UserRec) : String :=
  (if u.mentor then "*" else "") ++ u.name

/-- Rows of `User.query.filter_by(code=code)`. -/
def usersForCode (s : State) (code : String) : List UserRec :=
  s.users.filter (fun u => u.code == code)

/-- Rows of `Active.query.join(User).filter_by(code=code)`: the open sessions
whose user has the given code.  Note the filter involves the user only, not
the event. -/
def activesForCode (s : State) (code : String) : List ActiveRec :=
  s.actives.filter (fun a =>
    (((findUser s a.user_id).map (fun u => u.code == code)).getD false))

/-- Embedding of `SqliteModel.scan`.  `ev` is the event row handed to the
method (`None` when the event does not exist), `now` the current time at
which the request commits (the `server_default=func.now()` of `Active.start`
and `Stamps.end`).  The returned pair is the state after the transaction and
the optional `StampEvent` outcome; every silent-failure branch of the Python
code returns the unchanged state and no outcome. -/
def scan (s : State) (now : Int) (ev : Option EventRec) (name : String) :
    State × Option StampEvent :=
  match ev with
  | none => (s, none)
  | some e =>
    if is_active e now then
      match canonical_name name with
      | none => (s, none)
      | some code =>
        if code = "" then (s, none)
        else
          match usersForCode s code with
          | [user] =>
            if user.approved then
              match activesForCode s code with
              | [] =>
                ({ s with
                    actives := s.actives ++ [⟨s.nextActiveId, user.id, e.id, now⟩],
                    nextActiveId := s.nextActiveId + 1 },
                 some ⟨human_readable user, "in"⟩)
              | [a] =>
                ({ s with
                    actives := s.actives.filter (fun x => x.id != a.id),
                    stamps := s.stamps ++ [⟨s.nextStampId, user.id, e.id, a.start, now⟩],
                    nextStampId := s.nextStampId + 1 },
                 some ⟨human_readable user,
                       "out after " ++ toString (now - a.start)⟩)
              | _ :: _ :: _ => (s, none)
            else (s, none)
          | _ => (s, none)
    else (s, none)

/-- Dictionary produced by `Stamps.as_dict` (model.py).  `elapsed` is kept as
the integer duration `end - start` rather than Python's `str(timedelta)`
rendering. -/
structure StampDict where
  user : String
  elapsed : Int
  start : Int
  end_ : Int
  event : String
deriving Repr, DecidableEq

/-- Dictionary produced by `Active.as_dict` (model.py). -/
structure ActiveDict where
  user : String
  start : Int
  event : String
deriving Repr, DecidableEq

/-- Row produced by `Stamps.as_list` (model.py), plus the header row `export`
prepends.  Data rows carry `[human_readable, start, end, elapsed, event.name]`. -/
inductive ExportEntry where
  | header
  | row (user : String) (start : Int) (end_ : Int) (elapsed : Int) (event : String)
deriving Repr, DecidableEq

/-- Embedding of `Stamps.as_dict`: the joined user and event rows are read
through their foreign keys (referential integrity makes the `getD` defaults
unreachable in well-formed states). -/
def stamp_as_dict (s : State) (st : StampRec) : StampDict :=
  { user := ((findUser s st.user_id).map human_readable).getD ""
    elapsed := st.end_ - st.start
    start := st.start
    end_ := st.end_
    event := ((findEvent s st.event_id).map (fun e => e.name)).getD "" }

/-- Embedding of `Active.as_dict`. -/
def active_as_dict (s : State) (a : ActiveRec) : ActiveDict :=
  { user := ((findUser s a.user_id).map human_readable).getD ""
    start := a.start
    event := ((findEvent s a.event_id).map (fun e => e.name)).getD "" }

/-- Embedding of `Stamps.as_list`. -/
def stamp_as_list (s : State) (st : StampRec) : ExportEntry :=
  .row (((findUser s st.user_id).map human_readable).getD "")
    st.start st.end_ (st.end_ - st.start)
    (((findEvent s st.event_id).map (fun e => e.name)).getD "")

/-- The base filter `Stamps.query.filter(Stamps.event.enabled == True)` shared
by `get_stamps` and `export`: keep a stamp when its joined event row exists
and has `enabled` set.  The filter reads the event's own `enabled` column. -/
def eventEnabled (s : State) (st : StampRec) : Bool :=
  ((findEvent s st.event_id).map (fun e => e.enabled)).getD false

/-- Embedding of `SqliteModel.get_stamps`.  `if name:` and `if event:` are
Python truthiness tests, so `None` and the empty string both skip the filter;
when `canonical_name` returns `None` the subsequent `filter_by(code=None)`
matches no user (the `code` column is non-nullable), leaving no rows.  The
state is returned unchanged alongside the rows: the method never writes. -/
def get_stamps (s : State) (name : Option String) (event : Option String) :
    State × List StampDict :=
  let q0 : List StampRec := s.stamps.filter (eventEnabled s)
  let q1 : List StampRec :=
    match name with
    | none => q0
    | some n =>
      if n = "" then q0
      else
        match canonical_name n with
        | some code =>
          q0.filter (fun st =>
            ((findUser s st.user_id).map (fun u => u.code == code)).getD false)
        | none => q0.filter (fun _ => false)
  let q2 : List StampRec :=
    match event with
    | none => q1
    | some ev =>
      if ev = "" then q1
      else
        q1.filter (fun st =>
          ((findEvent s st.event_id).map (fun e => e.code == ev)).getD false)
  (s, q2.map (stamp_as_dict s))

/-- Embedding of `SqliteModel.get_active`.  The state is returned unchanged
alongside the rows: the method never writes. -/
def get_active (s : State) (event : Option String) : State × List ActiveDict :=
  let q : List ActiveRec :=
    match event with
    | none => s.actives
    | some ev =>
      if ev = "" then s.actives
      else
        s.actives.filter (fun a =>
          ((findEvent s a.event_id).map (fun e => e.code == ev)).getD false)
  (s, q.map (active_as_dict s))

/-- Embedding of `SqliteModel.export`.  The `name` filter uses `mk_hash`
directly (not `canonical_name`); the `start` filter is literally
`Stamps.start < start` and the `end` filter `Stamps.end > end`, as written in
model.py.  The `type_` filter (`join(Event).filter_by(type_=type_)`) is
modelled as matching the event's type id, and the `subteam` filter as
matching the user's subteam id.  The state is returned unchanged alongside
the rows: the method never writes. -/
def export' (s : State) (name : Option String) (start : Option Int)
    (end_ : Option Int) (type_ : Option Nat) (subteam : Option Nat)
    (headers : Bool) : State × List ExportEntry :=
  let q0 : List StampRec := s.stamps.filter (eventEnabled s)
  let q1 : List StampRec :=
    match name with
    | none => q0
    | some n =>
      if n = "" then q0
      else
        q0.filter (fun st =>
          ((findUser s st.user_id).map (fun u => u.code == mk_hash n)).getD false)
  let q2 : List StampRec :=
    match start with
    | none => q1
    | some st0 => q1.filter (fun st => decide (st.start < st0))
  let q3 : List StampRec :=
    match end_ with
    | none => q2
    | some en0 => q2.filter (fun st => decide (st.end_ > en0))
  let q4 : List StampRec :=
    match type_ with
    | none => q3
    | some t =>
      q3.filter (fun st =>
        ((findEvent s st.event_id).map (fun e => e.type_id == t)).getD false)
  let q5 : List StampRec :=
    match subteam with
    | none => q4
    | some sub =>
      q4.filter (fun st =>
        ((findUser s st.user_id).map (fun u => u.subteam_id == some sub)).getD false)
  let rows : List ExportEntry := q5.map (stamp_as_list s)
  (s, if headers then ExportEntry.header :: rows else rows)

/-! Concrete fixtures used to evaluate the operations on explicit inputs. -/

/-- An empty database. -/
def S0 : State := ⟨[], [], [], [], [], 1, 1⟩

/-- The single event type of the fixtures. -/
def T1 : EventTypeRec := ⟨1, "Training", false⟩

/-- An approved, non-mentor user whose code is the canonical key of
`"Smith, John"`. -/
def U1 : UserRec := ⟨1, "John Smith", (canonical_name "Smith, John").getD "", true, false, none⟩

/-- An enabled event with window 600 to 720. -/
def E1 : EventRec := ⟨1, "Build", "ev1", 600, 720, 1, true⟩

/-- An open session of user 1 at event 1, started at time 605. -/
def A1 : ActiveRec := ⟨1, 1, 1, 605⟩

/-- State with one user, one event and one open session. -/
def S1 : State := ⟨[U1], [E1], [T1], [A1], [], 2, 1⟩

/-- State with one user, one event and no open session. -/
def S2 : State := ⟨[U1], [E1], [T1], [], [], 1, 1⟩

/-- A second enabled event, distinct from `E1`, with the same window. -/
def E4B : EventRec := ⟨2, "Demo", "ev2", 600, 720, 1, true⟩

/-- State where user 1 has an open session at event 1 while event 2 is also
active. -/
def S4 : State := ⟨[U1], [E1, E4B], [T1], [A1], [], 2, 1⟩

/-- An enabled event with window 0 to 10. -/
def E5 : EventRec := ⟨1, "Kickoff", "ev5", 0, 10, 1, true⟩

/-- A stamp lying inside the time window 605 to 700. -/
def st71 : StampRec := ⟨1, 1, 1, 610, 611⟩

/-- A stamp strictly containing the time window 605 to 700. -/
def st72 : StampRec := ⟨2, 1, 1, 600, 710⟩

/-- State with the two stamps `st71` and `st72` on the enabled event `E1`. -/
def S7 : State := ⟨[U1], [E1], [T1], [], [st71, st72], 1, 3⟩

/-- An enabled event of type 1. -/
def EA : EventRec := ⟨1, "Alpha", "ca", 0, 100, 1, true⟩

/-- A disabled event of the same type 1. -/
def EB : EventRec := ⟨2, "Beta", "cb", 0, 100, 1, false⟩

/-- A stamp on the enabled event `EA`. -/
def stA : StampRec := ⟨1, 1, 1, 10, 20⟩

/-- A stamp on the disabled event `EB`, whose event type equals `stA`'s. -/
def stB : StampRec := ⟨2, 1, 2, 30, 40⟩

/-- State with one stamp on an enabled event and one on a disabled event of
the same event type. -/
def S8 : State := ⟨[U1], [EA, EB], [T1], [], [stA, stB], 1, 3⟩

/-! Theorems settling the claims. -/

/-- C2: for an approved user with no open session and an active event, `scan`
appends exactly one `Active` row for that user with start equal to the
current time, leaves the stamps untouched, and returns the signed-in
outcome. -/
theorem scan_signs_in (s : State) (now : Int) (e : EventRec) (name code : String)
    (u : UserRec)
    (hact : is_active e now = true)
    (hcode : canonical_name name = some code)
    (hne : code ≠ "")
    (huser : usersForCode s code = [u])
    (happr : u.approved = true)
    (hsess : activesForCode s code = []) :
    scan s now (some e) name =
      ({ s with
          actives := s.actives ++ [⟨s.nextActiveId, u.id, e.id, now⟩],
          nextActiveId := s.nextActiveId + 1 },
       some ⟨human_readable u, "in"⟩)
    ∧ (scan s now (some e) name).1.stamps = s.stamps := by
  constructor
  · simp [scan, hact, hcode, hne, huser, happr, hsess]
  · simp [scan, hact, hcode, hne, huser, happr, hsess]

/-- C2 witness: first scan of `"Smith, John"` at the active event of `S2`. -/
theorem scan_signs_in_witness :
    scan S2 620 (some E1) "Smith, John" =
      ({ S2 with
          actives := S2.actives ++ [⟨S2.nextActiveId, U1.id, E1.id, 620⟩],
          nextActiveId := S2.nextActiveId + 1 },
       some ⟨human_readable U1, "in"⟩)
    ∧ (scan S2 620 (some E1) "Smith, John").1.stamps = S2.stamps :=
  scan_signs_in S2 620 E1 "Smith, John" U1.code U1 (by decide) (by decide)
    (by decide) (by decide) (by decide) (by decide)

/-- C1: for an approved user with exactly one open session and an active
event, `scan` deletes the session, appends exactly one stamp whose start is
the session's start and whose end is the current time, and returns the
signed-out outcome carrying the elapsed value now minus the session's
start. -/
theorem scan_signs_out (s : State) (now : Int) (e : EventRec) (name code : String)
    (u : UserRec) (a : ActiveRec)
    (hact : is_active e now = true)
    (hcode : canonical_name name = some code)
    (hne : code ≠ "")
    (huser : usersForCode s code = [u])
    (happr : u.approved = true)
    (hsess : activesForCode s code = [a]) :
    scan s now (some e) name =
      ({ s with
          actives := s.actives.filter (fun x => x.id != a.id),
          stamps := s.stamps ++ [⟨s.nextStampId, u.id, e.id, a.start, now⟩],
          nextStampId := s.nextStampId + 1 },
       some ⟨human_readable u, "out after " ++ toString (now - a.start)⟩)
    ∧ a ∉ (scan s now (some e) name).1.actives := by
  have heq : scan s now (some e) name =
      ({ s with
          actives := s.actives.filter (fun x => x.id != a.id),
          stamps := s.stamps ++ [⟨s.nextStampId, u.id, e.id, a.start, now⟩],
          nextStampId := s.nextStampId + 1 },
       some ⟨human_readable u, "out after " ++ toString (now - a.start)⟩) := by
    simp [scan, hact, hcode, hne, huser, happr, hsess]
  refine ⟨heq, ?_⟩
  rw [heq]
  intro hmem
  have := (List.mem_filter.mp hmem).2
  simp at this

/-- C1 witness: second scan of `"Smith, John"` at the active event of `S1`,
closing the session started at time 605 at time 620. -/
theorem scan_signs_out_witness :
    scan S1 620 (some E1) "Smith, John" =
      ({ S1 with
          actives := S1.actives.filter (fun x => x.id != A1.id),
          stamps := S1.stamps ++ [⟨S1.nextStampId, U1.id, E1.id, A1.start, 620⟩],
          nextStampId := S1.nextStampId + 1 },
       some ⟨human_readable U1, "out after " ++ toString ((620 : Int) - A1.start)⟩)
    ∧ A1 ∉ (scan S1 620 (some E1) "Smith, John").1.actives :=
  scan_signs_out S1 620 E1 "Smith, John" U1.code U1 A1 (by decide) (by decide)
    (by decide) (by decide) (by decide) (by decide)

/-- C3: when the event is missing or inactive, the identity cannot be
canonicalized (or canonicalizes to the empty string), or no approved user
matches the canonical key, `scan` returns no outcome and the state is
unchanged. -/
theorem scan_failure_noop (s : State) (now : Int) (ev : Option EventRec)
    (name : String)
    (h : ev = none
       ∨ (∀ e, ev = some e → is_active e now = false)
       ∨ canonical_name name = none
       ∨ canonical_name name = some ""
       ∨ (∃ code, canonical_name name = some code ∧ code ≠ "" ∧
            usersForCode s code = [])
       ∨ (∃ code u, canonical_name name = some code ∧ code ≠ "" ∧
            usersForCode s code = [u] ∧ u.approved = false)) :
    scan s now ev name = (s, none) := by
  cases ev with
  | none => rfl
  | some e =>
    rcases h with h | h | h | h | ⟨code, hc, hne, hu⟩ | ⟨code, u, hc, hne, hu, happ⟩
    · exact absurd h (by simp)
    · simp [scan, h e rfl]
    · cases hb : is_active e now <;> simp [scan, hb, h]
    · cases hb : is_active e now <;> simp [scan, hb, h]
    · cases hb : is_active e now <;> simp [scan, hb, hc, hne, hu]
    · cases hb : is_active e now <;> simp [scan, hb, hc, hne, hu, happ]

/-- C3 witness: a scan with no event row is a no-op on the empty database. -/
theorem scan_failure_noop_witness : scan S0 0 none "x" = (S0, none) :=
  scan_failure_noop S0 0 none "x" (Or.inl rfl)

/-- C4 counterexample: the open-session lookup in `scan` filters by user
only, so a scan at event 2 deletes the session the user opened at event 1
and stamps the elapsed time onto event 2.  This refutes the claim that a
scan at one event never affects an `Active` row opened at a different
event. -/
theorem scan_crosses_events :
    A1 ∈ S4.actives ∧ A1.event_id = E1.id ∧ E1.id ≠ E4B.id ∧
    (scan S4 620 (some E4B) "Smith, John").1.actives = [] ∧
    (scan S4 620 (some E4B) "Smith, John").1.stamps =
      [⟨1, U1.id, E4B.id, A1.start, 620⟩] := by
  refine ⟨by decide, by decide, by decide, ?_, ?_⟩ <;> decide

/-- Helper: the sign-in branch of `scan` as an equation. -/
theorem scan_in_eq (s : State) (now : Int) (e : EventRec) (name code : String)
    (u : UserRec)
    (hact : is_active e now = true)
    (hcode : canonical_name name = some code)
    (hne : code ≠ "")
    (huser : usersForCode s code = [u])
    (happr : u.approved = true)
    (hsess : activesForCode s code = []) :
    scan s now (some e) name =
      ({ s with
          actives := s.actives ++ [⟨s.nextActiveId, u.id, e.id, now⟩],
          nextActiveId := s.nextActiveId + 1 },
       some ⟨human_readable u, "in"⟩) := by
  simp [scan, hact, hcode, hne, huser, happr, hsess]

/-- Helper: the sign-out branch of `scan` as an equation. -/
theorem scan_out_eq (s : State) (now : Int) (e : EventRec) (name code : String)
    (u : UserRec) (a : ActiveRec)
    (hact : is_active e now = true)
    (hcode : canonical_name name = some code)
    (hne : code ≠ "")
    (huser : usersForCode s code = [u])
    (happr : u.approved = true)
    (hsess : activesForCode s code = [a]) :
    scan s now (some e) name =
      ({ s with
          actives := s.actives.filter (fun x => x.id != a.id),
          stamps := s.stamps ++ [⟨s.nextStampId, u.id, e.id, a.start, now⟩],
          nextStampId := s.nextStampId + 1 },
       some ⟨human_readable u, "out after " ++ toString (now - a.start)⟩) := by
  simp [scan, hact, hcode, hne, huser, happr, hsess]

/-- C4 amended: the toggle is per user, not per (user, event): a successful
scan signs the user in when they have no open session anywhere, and signs
them out — removing their open session — when they have one, even one opened
at a different event. -/
theorem scan_toggle_per_user (s : State) (now : Int) (e : EventRec)
    (name code : String) (u : UserRec)
    (hact : is_active e now = true)
    (hcode : canonical_name name = some code)
    (hne : code ≠ "")
    (huser : usersForCode s code = [u])
    (happr : u.approved = true)
    (hid : findUser s u.id = some u) :
    (activesForCode s code = [] →
      activesForCode (scan s now (some e) name).1 code =
        [⟨s.nextActiveId, u.id, e.id, now⟩])
    ∧ (∀ a, activesForCode s code = [a] →
        activesForCode (scan s now (some e) name).1 code = []) := by
  have hmemu : u ∈ usersForCode s code := by
    rw [huser]; exact List.mem_singleton.mpr rfl
  have hcodeu : (u.code == code) = true := (List.mem_filter.mp hmemu).2
  constructor
  · intro h0
    rw [scan_in_eq s now e name code u hact hcode hne huser happr h0]
    show (s.actives ++ [(⟨s.nextActiveId, u.id, e.id, now⟩ : ActiveRec)]).filter
        (fun (a : ActiveRec) =>
          (((findUser s a.user_id).map (fun (v : UserRec) => v.code == code)).getD false)) =
      [⟨s.nextActiveId, u.id, e.id, now⟩]
    rw [List.filter_append]
    have h0' : s.actives.filter
        (fun (a : ActiveRec) =>
          (((findUser s a.user_id).map (fun (v : UserRec) => v.code == code)).getD false)) = [] := h0
    rw [h0']
    simp [hid, hcodeu]
  · intro a ha
    rw [scan_out_eq s now e name code u a hact hcode hne huser happr ha]
    show (s.actives.filter (fun (x : ActiveRec) => x.id != a.id)).filter
        (fun (x : ActiveRec) =>
          (((findUser s x.user_id).map (fun (v : UserRec) => v.code == code)).getD false)) = []
    rw [List.filter_filter]
    have hswap : s.actives.filter
        (fun (x : ActiveRec) =>
          (((findUser s x.user_id).map (fun (v : UserRec) => v.code == code)).getD false)
            && (x.id != a.id))
        = s.actives.filter
          (fun (x : ActiveRec) => (x.id != a.id)
            && (((findUser s x.user_id).map (fun (v : UserRec) => v.code == code)).getD false)) :=
      List.filter_congr (fun x _ => Bool.and_comm _ _)
    rw [hswap, ← List.filter_filter]
    have ha' : s.actives.filter
        (fun (x : ActiveRec) =>
          (((findUser s x.user_id).map (fun (v : UserRec) => v.code == code)).getD false)) = [a] := ha
    rw [ha']
    simp

/-- C4 witness: applying the toggle theorem at the concrete state `S2`. -/
theorem scan_toggle_per_user_witness :
    (activesForCode S2 U1.code = [] →
      activesForCode (scan S2 620 (some E1) "Smith, John").1 U1.code =
        [⟨S2.nextActiveId, U1.id, E1.id, 620⟩])
    ∧ (∀ a, activesForCode S2 U1.code = [a] →
        activesForCode (scan S2 620 (some E1) "Smith, John").1 U1.code = []) :=
  scan_toggle_per_user S2 620 E1 "Smith, John" U1.code U1 (by decide) (by decide)
    (by decide) (by decide) (by decide) (by decide)

/-- C5 counterexample: `is_active` uses strict comparisons on both ends
(`self.start < now and now < self.end`), so an enabled event is NOT active at
the instant now = start, contradicting the claimed half-open window
[start, end). -/
theorem is_active_boundary_cex :
    E5.enabled = true ∧ E5.start = 0 ∧ is_active E5 0 = false := by
  decide

/-- C5 amended: an event is active iff it is enabled and now lies strictly
between start and end; in particular an enabled event is active neither at
the instant now = start nor at the instant now = end. -/
theorem is_active_iff :
    ∀ (e : EventRec) (now : Int),
      (is_active e now = true ↔ (e.enabled = true ∧ e.start < now ∧ now < e.end_))
      ∧ is_active e e.start = false ∧ is_active e e.end_ = false := by
  intro e now
  refine ⟨?_, ?_, ?_⟩ <;> simp [is_active, and_assoc]

/-- C6: canonicalization is case-insensitive on the name parts: whenever two
strings match `NAME_RE` with last and first groups equal up to letter case,
`canonical_name` produces the same key. -/
theorem canonical_name_case_insensitive :
    ∀ (s1 s2 : String) (l1 f1 l2 f2 : List Char),
      matchName s1.data = some (l1, f1) →
      matchName s2.data = some (l2, f2) →
      l1.map Char.toLower = l2.map Char.toLower →
      f1.map Char.toLower = f2.map Char.toLower →
      canonical_name s1 = canonical_name s2 := by
  intro s1 s2 l1 f1 l2 f2 h1 h2 hl hf
  have hlow : (f1 ++ ' ' :: l1).map Char.toLower = (f2 ++ ' ' :: l2).map Char.toLower := by
    simp [List.map_append, hl, hf]
  simp [canonical_name, h1, h2, mk_hash, hlow]

/-- C6 witness: the two spellings of the spec's example yield the same key. -/
theorem canonical_name_case_insensitive_witness :
    canonical_name "Smith, John" = canonical_name "smith, john" :=
  canonical_name_case_insensitive "Smith, John" "smith, john"
    "Smith".data "John".data "smith".data "john".data
    (by decide) (by decide) (by decide) (by decide)

/-- C7: the time-range filters of `export` are inverted.  With requested
range 605 to 700, the stamp `st71` = [610, 611] lies inside the window yet is
excluded (the code keeps stamps with `Stamps.start < start`), while `st72` =
[600, 710] lies outside (strictly containing) the window yet is the only
row returned. -/
theorem export_range_filter_inverted :
    st71 ∈ S7.stamps ∧ (605 : Int) ≤ st71.start ∧ st71.end_ ≤ (700 : Int) ∧
    stamp_as_list S7 st71 ∉ (export' S7 none (some 605) (some 700) none none true).2 ∧
    ¬ ((605 : Int) ≤ st72.start ∧ st72.end_ ≤ (700 : Int)) ∧
    export' S7 none (some 605) (some 700) none none true =
      (S7, [ExportEntry.header, stamp_as_list S7 st72]) := by
  refine ⟨by decide, by decide, by decide, by decide, by decide, by decide⟩

/-- C8 counterexample: in `S8` the stamps `stA` and `stB` sit on two events
of the SAME event type, yet `get_stamps` returns the one on the enabled
event and omits the one on the disabled event.  No assignment of
enabledness to event types can therefore characterise which stamps are
listed: the restriction is by the event's own enabled flag, and the
`event_types` table has no enabled column at all. -/
theorem get_stamps_not_type_restricted :
    ¬ ∃ et : Nat → Bool, ∀ st ∈ S8.stamps,
        (stamp_as_dict S8 st ∈ (get_stamps S8 none none).2 ↔
          et (((findEvent S8 st.event_id).map (fun e => e.type_id)).getD 0) = true) := by
  rintro ⟨et, h⟩
  have hA := h stA (by decide)
  have hB := h stB (by decide)
  have h1 : et 1 = true := hA.mp (by decide)
  have h2 : stamp_as_dict S8 stB ∈ (get_stamps S8 none none).2 := hB.mpr h1
  exact absurd h2 (by decide)

/-- C8 amended: every row returned by `get_stamps` or `export` arises from a
stamp whose event row exists and has its OWN enabled flag set; stamps of
disabled events never appear. -/
theorem stamps_results_event_enabled :
    (∀ (s : State) (n e : Option String) (d : StampDict),
        d ∈ (get_stamps s n e).2 →
        ∃ st, st ∈ s.stamps ∧ eventEnabled s st = true ∧ d = stamp_as_dict s st)
    ∧ (∀ (s : State) (n : Option String) (a b : Option Int) (t sub : Option Nat)
        (hd : Bool) (r : ExportEntry),
        r ∈ (export' s n a b t sub hd).2 →
        r = ExportEntry.header ∨
          ∃ st, st ∈ s.stamps ∧ eventEnabled s st = true ∧ r = stamp_as_list s st) := by
  constructor
  · intro s n e d hmem
    simp only [get_stamps] at hmem
    rw [List.mem_map] at hmem
    obtain ⟨st, hst, hd⟩ := hmem
    have hst0 : st ∈ s.stamps.filter (eventEnabled s) := by
      rcases e with _ | ev <;> rcases n with _ | nm <;>
        simp only [] at hst <;> (repeat' split at hst) <;>
        first
          | exact hst
          | exact (List.mem_filter.mp hst).1
          | exact (List.mem_filter.mp (List.mem_filter.mp hst).1).1
    exact ⟨st, (List.mem_filter.mp hst0).1, (List.mem_filter.mp hst0).2, hd.symm⟩
  · intro s n a b t sub hd r hmem
    simp only [export'] at hmem
    split at hmem
    case isTrue =>
      rcases List.mem_cons.mp hmem with hh | hmem2
      · exact Or.inl hh
      · right
        rw [List.mem_map] at hmem2
        obtain ⟨st, hst, hr⟩ := hmem2
        have hst0 : st ∈ s.stamps.filter (eventEnabled s) := by
          rcases n with _ | nm <;> rcases a with _ | a0 <;> rcases b with _ | b0 <;>
            rcases t with _ | t0 <;> rcases sub with _ | sub0 <;>
            simp only [] at hst <;> (repeat' split at hst) <;>
            first
              | exact hst
              | exact (List.mem_filter.mp hst).1
              | exact (List.mem_filter.mp (List.mem_filter.mp hst).1).1
              | exact (List.mem_filter.mp (List.mem_filter.mp (List.mem_filter.mp hst).1).1).1
              | exact (List.mem_filter.mp (List.mem_filter.mp (List.mem_filter.mp
                  (List.mem_filter.mp hst).1).1).1).1
              | exact (List.mem_filter.mp (List.mem_filter.mp (List.mem_filter.mp
                  (List.mem_filter.mp (List.mem_filter.mp hst).1).1).1).1).1
        exact ⟨st, (List.mem_filter.mp hst0).1, (List.mem_filter.mp hst0).2, hr.symm⟩
    case isFalse =>
      right
      rw [List.mem_map] at hmem
      obtain ⟨st, hst, hr⟩ := hmem
      have hst0 : st ∈ s.stamps.filter (eventEnabled s) := by
        rcases n with _ | nm <;> rcases a with _ | a0 <;> rcases b with _ | b0 <;>
          rcases t with _ | t0 <;> rcases sub with _ | sub0 <;>
          simp only [] at hst <;> (repeat' split at hst) <;>
          first
            | exact hst
            | exact (List.mem_filter.mp hst).1
            | exact (List.mem_filter.mp (List.mem_filter.mp hst).1).1
            | exact (List.mem_filter.mp (List.mem_filter.mp (List.mem_filter.mp hst).1).1).1
            | exact (List.mem_filter.mp (List.mem_filter.mp (List.mem_filter.mp
                (List.mem_filter.mp hst).1).1).1).1
            | exact (List.mem_filter.mp (List.mem_filter.mp (List.mem_filter.mp
                (List.mem_filter.mp (List.mem_filter.mp hst).1).1).1).1).1
      exact ⟨st, (List.mem_filter.mp hst0).1, (List.mem_filter.mp hst0).2, hr.symm⟩

/-- C8 amended witness: the single row listed from `S8` arises from the
stamp `stA` on the enabled event. -/
theorem stamps_results_event_enabled_witness :
    ∃ st, st ∈ S8.stamps ∧ eventEnabled S8 st = true ∧
      stamp_as_dict S8 stA = stamp_as_dict S8 st :=
  stamps_results_event_enabled.1 S8 none none (stamp_as_dict S8 stA) (by decide)

/-- C9: the query operations `get_stamps`, `get_active` and `export` never
modify the state: each returns the database unchanged for every combination
of filter arguments. -/
theorem queries_read_only :
    ∀ (s : State) (n e ev nm : Option String) (a b : Option Int)
      (t sub : Option Nat) (hd : Bool),
      (get_stamps s n e).1 = s ∧ (get_active s ev).1 = s ∧
      (export' s nm a b t sub hd).1 = s := by
  intro s n e ev nm a b t sub hd
  exact ⟨rfl, rfl, rfl⟩

/-- C10: every string rejected by `NAME_RE` but accepted by `HASH_RE`
(including plain words like John and the empty string) passes through
`canonical_name` unchanged; and the empty-string key is then treated by
`scan` as a canonicalization failure, leaving any state unchanged with no
outcome. -/
theorem canonical_name_passthrough :
    (∀ s : String, matchName s.data = none → matchHash s.data = true →
        canonical_name s = some s)
    ∧ (∀ (st : State) (now : Int) (ev : Option EventRec),
        scan st now ev "" = (st, none)) := by
  constructor
  · intro s h1 h2
    simp [canonical_name, h1, h2]
  · intro st now ev
    have hc : canonical_name "" = some "" := rfl
    cases ev with
    | none => rfl
    | some e => cases hb : is_active e now <;> simp [scan, hb, hc]

/-- C10 witness: the plain word John and the empty string pass through
unchanged, and a scan of the empty string is a no-op. -/
theorem canonical_name_passthrough_witness :
    canonical_name "John" = some "John" ∧ canonical_name "" = some "" ∧
    scan S0 0 none "" = (S0, none) :=
  ⟨canonical_name_passthrough.1 "John" (by decide) (by decide),
   canonical_name_passthrough.1 "" (by decide) (by decide),
   canonical_name_passthrough.2 S0 0 none⟩

end Signin
